import Mathlib

/-!
Verification of the CSV ingestion core of the repository
(`src/rust/src/simd_parser.rs`, `stream_processor.rs`, `metrics.rs`).

Modelling conventions:
* Bytes are natural numbers (`44` = comma, `34` = double quote, `10` = LF,
  `13` = CR).  The source pushes Rust `char`s; on ASCII input byte-level and
  char-level processing coincide, and every concrete input used below is
  ASCII.  `String::from_utf8_lossy` is the identity on such input, so raw
  input data is modelled directly as a byte list.
* Fallible Rust code returning `Result` is modelled with `Except`.
* The helper `bytes` turns an ASCII string literal into its byte list, for
  readability of concrete inputs.
-/

/-- Byte list of an ASCII string literal (ASCII code points only). -/
def bytes (s : String) : List Nat :=
  s.data.map Char.toNat

deriving instance DecidableEq for Except

namespace SimdParser

/-- Loop state of `parse_line_simd`: the completed tokens, the token being
accumulated, and the `in_quotes` flag. -/
structure ScanState where
  tokens : List (List Nat)
  current : List Nat
  in_quotes : Bool
deriving DecidableEq

/-- One step of the scalar loops of `parse_line_simd` (both the
"fallback to standard parsing" branch and the "handle remaining bytes"
tail loop after the vector windows, which are letter-for-letter the same
with `delim = 44`): split on an unquoted delimiter, toggle `in_quotes` on a
quote byte, otherwise push the byte. -/
def scalarStep (delim : Nat) (s : ScanState) (b : Nat) : ScanState :=
  if b = delim ∧ s.in_quotes = false then
    ⟨s.tokens ++ [s.current], [], s.in_quotes⟩
  else if b = 34 then
    ⟨s.tokens, s.current, !s.in_quotes⟩
  else
    ⟨s.tokens, s.current ++ [b], s.in_quotes⟩

/-- One 32-byte window of the AVX2 loop of `parse_line_simd`.  The compare
mask marks comma positions; if the mask is non-zero every byte of the window
is visited (comma: close the token; otherwise push the byte — note the quote
byte is pushed literally and `in_quotes` is never consulted), and if the mask
is zero the whole window is appended to the current token. -/
def windowStep (s : ScanState) (w : List Nat) : ScanState :=
  if w.any (fun b => b = 44) then
    w.foldl (fun t b =>
      if b = 44 then ⟨t.tokens ++ [t.current], [], t.in_quotes⟩
      else ⟨t.tokens, t.current ++ [b], t.in_quotes⟩) s
  else
    ⟨s.tokens, s.current ++ w, s.in_quotes⟩

/-- The `while i + 32 <= bytes.len()` loop of `parse_line_simd`: consume
32-byte windows while at least 32 bytes remain, returning the state and the
unconsumed tail.  The extra fuel argument is the structural loop variant;
callers pass the list length, which always suffices since every iteration
consumes 32 bytes. -/
def simdLoop : Nat → List Nat → ScanState → ScanState × List Nat
  | 0, bs, s => (s, bs)
  | fuel + 1, bs, s =>
    if 32 ≤ bs.length then
      simdLoop fuel (bs.drop 32) (windowStep s (bs.take 32))
    else
      (s, bs)

/-- The "fallback to standard parsing" path of `parse_line_simd`
(the `else` branch), including the final `tokens.push(current_token)`. -/
def scalarPath (line : List Nat) (delim : Nat) : List (List Nat) :=
  let s := line.foldl (scalarStep delim) ⟨[], [], false⟩
  s.tokens ++ [s.current]

/-- The AVX2 path of `parse_line_simd` (taken when the delimiter is a comma
and the line is at least 32 bytes long): vector windows, then the scalar
tail loop over the remaining bytes, then the final token push. -/
def simdPath (line : List Nat) : List (List Nat) :=
  let p := simdLoop line.length line ⟨[], [], false⟩
  let s := p.2.foldl (scalarStep 44) p.1
  s.tokens ++ [s.current]

/-- Rust `SimdParser::parse_line_simd`: dispatch between the AVX2 path
(`delimiter == ',' && line.len() >= 32`) and the scalar fallback. -/
def parse_line_simd (line : List Nat) (delim : Nat) : List (List Nat) :=
  if delim = 44 ∧ 32 ≤ line.length then simdPath line
  else scalarPath line delim

/-- Rust `str::split_inclusive('\n')`, used by `str::lines`: cut the byte list
into pieces, each piece keeping its terminating LF; no empty trailing
piece is produced. -/
def splitInclusiveNewline : List Nat → List (List Nat)
  | [] => []
  | b :: rest =>
    if b = 10 then [10] :: splitInclusiveNewline rest
    else
      match splitInclusiveNewline rest with
      | [] => [[b]]
      | seg :: segs => (b :: seg) :: segs

/-- The per-piece map of `str::lines`: strip one trailing LF, and a CR
directly before that LF; a piece not ending in LF (the last piece of an
input with no final newline) is returned unchanged, even if it ends in CR. -/
def stripLineEnding (l : List Nat) : List Nat :=
  if l.getLast? = some 10 then
    let s := l.dropLast
    if s.getLast? = some 13 then s.dropLast else s
  else l

/-- Rust `csv_string.lines()` as used by `parse_csv`. -/
def rustLines (data : List Nat) : List (List Nat) :=
  (splitInclusiveNewline data).map stripLineEnding

/-- Arrow `DataType`, restricted to the variants the source mentions. -/
inductive DataType
  | Int64
  | Float64
  | Utf8
  | Timestamp
deriving DecidableEq

/-- Arrow `Field`: name, data type, nullability. -/
structure Field where
  name : List Nat
  dtype : DataType
  nullable : Bool
deriving DecidableEq

/-- Rust `SimdParser::create_schema`: every header name becomes a nullable Utf8
field (`Field::new(name, DataType::Utf8, true)`). -/
def create_schema (header : List (List Nat)) : List Field :=
  header.map (fun name => ⟨name, .Utf8, true⟩)

/-- Error values of the parsing path, one constructor per `Err` site:
`"Empty CSV data"`, an `f64`/`i64` parse failure inside `create_array`, and
an Arrow error from `RecordBatch::try_new`. -/
inductive ParseError
  | emptyData
  | floatParse
  | intParse
  | arrowError
deriving DecidableEq

/-- ASCII decimal digit test. -/
def isDigit (b : Nat) : Bool := 48 ≤ b ∧ b ≤ 57

/-- Value of a digit string (most significant digit first). -/
def digitsVal (l : List Nat) : Nat :=
  l.foldl (fun acc b => acc * 10 + (b - 48)) 0

/-- Rust `str::parse::<i64>`: optional sign, at least one digit, and the
value must fit in an `i64`.  This branch of `create_array` is dead code in
the program: `create_schema` assigns `Utf8` to every field. -/
def parseI64 (s : List Nat) : Option Int :=
  let p : Int × List Nat :=
    match s with
    | 43 :: rest => (1, rest)
    | 45 :: rest => (-1, rest)
    | _ => (1, s)
  if p.2 = [] ∨ ¬ p.2.all isDigit then none
  else
    let v : Int := p.1 * digitsVal p.2
    if -(2 ^ 63) ≤ v ∧ v < 2 ^ 63 then some v else none

/-- Rust `str::parse::<f64>`, modelled over ℚ on the sign/digits/point
fragment of its grammar.  Like `parseI64` this branch of `create_array` is
unreachable: `create_schema` assigns `Utf8` to every field, so the exact
float grammar and rounding are irrelevant to every claim. -/
def parseF64 (s : List Nat) : Option Rat :=
  let p : Rat × List Nat :=
    match s with
    | 43 :: rest => (1, rest)
    | 45 :: rest => (-1, rest)
    | _ => (1, s)
  let ip := p.2.takeWhile isDigit
  let tail := p.2.drop ip.length
  match tail with
  | [] => if ip = [] then none else some (p.1 * (digitsVal ip : Rat))
  | 46 :: fp =>
    if fp.all isDigit ∧ (ip ≠ [] ∨ fp ≠ []) then
      some (p.1 * ((digitsVal ip : Rat) + (digitsVal fp : Rat) / (10 : Rat) ^ fp.length))
    else none
  | _ => none

/-- Arrow column array: `StringArray`, `Float64Array` or `Int64Array`. -/
inductive ColumnArray
  | utf8 (vals : List (List Nat))
  | f64 (vals : List Rat)
  | i64 (vals : List Int)
deriving DecidableEq

/-- Number of entries of a column array. -/
def ColumnArray.length : ColumnArray → Nat
  | .utf8 vs => vs.length
  | .f64 vs => vs.length
  | .i64 vs => vs.length

/-- Arrow data type of a column array. -/
def ColumnArray.dataType : ColumnArray → DataType
  | .utf8 _ => .Utf8
  | .f64 _ => .Float64
  | .i64 _ => .Int64

/-- Rust `SimdParser::create_array`: convert one column of field texts to a typed
Arrow array; `Utf8` copies verbatim, the numeric branches parse every entry
and fail on the first parse error, and the catch-all branch
("Default to string") also copies verbatim. -/
def create_array (data : List (List Nat)) : DataType → Except ParseError ColumnArray
  | .Utf8 => .ok (.utf8 data)
  | .Float64 =>
    match data.mapM parseF64 with
    | some vals => .ok (.f64 vals)
    | none => .error .floatParse
  | .Int64 =>
    match data.mapM parseI64 with
    | some vals => .ok (.i64 vals)
    | none => .error .intParse
  | .Timestamp => .ok (.utf8 data)

/-- Arrow `RecordBatch`: a schema plus one column per field. -/
structure RecordBatch where
  schema : List Field
  columns : List ColumnArray
deriving DecidableEq

/-- Arrow `RecordBatch::try_new`: requires at least one column, one column
per schema field, matching data types, and all columns of equal length. -/
def RecordBatch.try_new (schema : List Field) (arrays : List ColumnArray) :
    Except ParseError RecordBatch :=
  match arrays with
  | [] => .error .arrowError
  | a :: rest =>
    if (a :: rest).length = schema.length
        ∧ (∀ p ∈ schema.zip (a :: rest), p.2.dataType = p.1.dtype)
        ∧ (∀ b ∈ rest, b.length = a.length) then
      .ok ⟨schema, a :: rest⟩
    else
      .error .arrowError

/-- The per-row column update of `parse_csv`:
`for (i, value) in row.iter().enumerate() { if i < columns.len() { columns[i].push(value) } }`
— column `i` receives the row's `i`-th field when the row has one; fields
beyond the column count are dropped, and columns beyond the row's field
count are left untouched. -/
def pushRow : List (List (List Nat)) → List (List Nat) → List (List (List Nat))
  | [], _ => []
  | cols, [] => cols
  | c :: cs, v :: vs => (c ++ [v]) :: pushRow cs vs

/-- The data-row loop of `parse_csv`: starting from one empty column per
header field, tokenize each line after the header and push its fields. -/
def buildColumns (k : Nat) (dataLines : List (List Nat)) (delim : Nat) :
    List (List (List Nat)) :=
  dataLines.foldl (fun cols line => pushRow cols (parse_line_simd line delim))
    (List.replicate k [])

/-- Rust `columns.iter().zip(schema.fields()).map(create_array).collect::<Result<_,_>>()`:
build one typed array per (column, field) pair, stopping at the first error;
`zip` stops at the shorter list. -/
def buildArrays : List (List (List Nat)) → List Field → Except ParseError (List ColumnArray)
  | [], _ => .ok []
  | _, [] => .ok []
  | c :: cs, f :: fs =>
    match create_array c f.dtype with
    | .error e => .error e
    | .ok a =>
      match buildArrays cs fs with
      | .error e => .error e
      | .ok rest => .ok (a :: rest)

/-- Body of `parse_csv` once the line split is known non-empty.  The Rust
locals are inlined: `header` is `parse_line_simd headerLine delim`,
`schema` is `create_schema header`, and `columns` is
`buildColumns header.length dataLines delim`. -/
def parseLines (headerLine : List Nat) (dataLines : List (List Nat)) (delim : Nat) :
    Except ParseError RecordBatch :=
  match buildArrays
      (buildColumns (parse_line_simd headerLine delim).length dataLines delim)
      (create_schema (parse_line_simd headerLine delim)) with
  | .error e => .error e
  | .ok arrays =>
    RecordBatch.try_new (create_schema (parse_line_simd headerLine delim)) arrays

/-- Rust `SimdParser::parse_csv`: split the input into lines, fail on empty
input, tokenize the first line as the header, create the schema, accumulate
the remaining lines into columns, convert to arrays, and assemble the
record batch.  The `batch_size` argument is accepted and never used,
exactly as in the source. -/
def parse_csv (data : List Nat) (delim : Nat) (_batch_size : Nat) :
    Except ParseError RecordBatch :=
  match rustLines data with
  | [] => .error .emptyData
  | headerLine :: dataLines => parseLines headerLine dataLines delim

end SimdParser

namespace StreamCore

/-- Error type of the `anyhow::Result` values in `stream_processor.rs` and
`metrics.rs`; the source never constructs an error, so the type is empty. -/
inductive StreamError
deriving DecidableEq

/-- Struct `ProcessingStats` of `stream_processor.rs`.  The wall-clock fields
(`throughput_mbps`, `processing_time_ms`) are elapsed-time measurements and
are not modelled; the two data fields below are the ones the source sets
from constants. -/
structure ProcessingStats where
  rows_processed : Nat
  bytes_processed : Nat
deriving DecidableEq

/-- Struct `StreamProcessor`: the source struct has no fields. -/
structure StreamProcessor
deriving DecidableEq

/-- Rust `StreamProcessor::process_stream`: the body never touches
`source_url`, `batch_size` or `schema_id`; it unconditionally returns
`Ok` with the hard-coded values `rows_processed = 1000` and
`bytes_processed = 1024 * 1024` ("Mock processing for now"). -/
def StreamProcessor.process_stream (_p : StreamProcessor) (_source_url : String)
    (_batch_size : Nat) (_schema_id : String) : Except StreamError ProcessingStats :=
  .ok ⟨1000, 1024 * 1024⟩

/-- Struct `MetricsCollector`: the source struct has no fields, and its methods
take `&self`, so no call can change its state. -/
structure MetricsCollector
deriving DecidableEq

/-- Rust `MetricsCollector::record_metric`: "Mock metric recording" — ignores
both arguments and returns `Ok(())` without storing anything (the receiver
is immutable and has no fields).  Metric values are `f64` in the source;
they are modelled over ℚ, and every value appearing below is an integer,
exactly representable in `f64`. -/
def MetricsCollector.record_metric (_c : MetricsCollector) (_name : String)
    (_value : Rat) : Except StreamError Unit :=
  .ok ()

/-- Rust `MetricsCollector::get_metrics`: "Mock metrics" — unconditionally
returns the fixed pairs `("rows_processed", 1000.0)` and
`("throughput_mbps", 100.0)`. -/
def MetricsCollector.get_metrics (_c : MetricsCollector) :
    Except StreamError (List (String × Rat)) :=
  .ok [("rows_processed", 1000), ("throughput_mbps", 100)]

end StreamCore

namespace SimdParser

/-- The per-byte action of a vector window with a non-zero comma mask,
written as a named function for the lemmas below. -/
def commaStep (t : ScanState) (b : Nat) : ScanState :=
  if b = 44 then ⟨t.tokens ++ [t.current], [], t.in_quotes⟩
  else ⟨t.tokens, t.current ++ [b], t.in_quotes⟩

theorem commaStep_in_quotes (t : ScanState) (b : Nat) :
    (commaStep t b).in_quotes = t.in_quotes := by
  unfold commaStep; split <;> rfl

theorem foldl_commaStep_in_quotes (w : List Nat) :
    ∀ s : ScanState, (w.foldl commaStep s).in_quotes = s.in_quotes := by
  induction w with
  | nil => intro s; rfl
  | cons b w ih => intro s; rw [List.foldl_cons, ih, commaStep_in_quotes]

theorem foldl_commaStep_no_comma (w : List Nat) :
    ∀ s : ScanState, (∀ b ∈ w, ¬ b = 44) →
      w.foldl commaStep s = ⟨s.tokens, s.current ++ w, s.in_quotes⟩ := by
  induction w with
  | nil => intro s _; simp
  | cons b w ih =>
    intro s h
    rw [List.foldl_cons]
    have hb : ¬ b = 44 := h b (by simp)
    rw [show commaStep s b = ⟨s.tokens, s.current ++ [b], s.in_quotes⟩ by
      unfold commaStep; rw [if_neg hb]]
    rw [ih _ (fun c hc => h c (by simp [hc]))]
    simp

theorem windowStep_eq_foldl (s : ScanState) (w : List Nat) :
    windowStep s w = w.foldl commaStep s := by
  unfold windowStep
  split
  · rfl
  · next hany =>
    have h : ∀ b ∈ w, ¬ b = 44 := by
      intro b hb hb44
      exact hany (List.any_eq_true.mpr ⟨b, hb, by simp [hb44]⟩)
    rw [foldl_commaStep_no_comma w s h]

theorem scalarStep_eq_commaStep (s : ScanState) (b : Nat)
    (hq : s.in_quotes = false) (hb : ¬ b = 34) :
    scalarStep 44 s b = commaStep s b := by
  unfold scalarStep commaStep
  by_cases h44 : b = 44
  · rw [if_pos ⟨h44, hq⟩, if_pos h44]
  · rw [if_neg (fun h => h44 h.1), if_neg hb, if_neg h44]

theorem foldl_scalarStep_eq_comma (w : List Nat) :
    ∀ s : ScanState, s.in_quotes = false → (∀ b ∈ w, ¬ b = 34) →
      w.foldl (scalarStep 44) s = w.foldl commaStep s := by
  induction w with
  | nil => intro s _ _; rfl
  | cons b w ih =>
    intro s hq h34
    rw [List.foldl_cons, List.foldl_cons,
      scalarStep_eq_commaStep s b hq (h34 b (by simp))]
    exact ih _ (by rw [commaStep_in_quotes, hq]) (fun c hc => h34 c (by simp [hc]))

theorem simdLoop_drain (fuel : Nat) :
    ∀ (bs : List Nat) (s : ScanState), bs.length ≤ fuel → s.in_quotes = false →
      (∀ b ∈ bs, ¬ b = 34) →
      ((simdLoop fuel bs s).2).foldl (scalarStep 44) (simdLoop fuel bs s).1 =
        bs.foldl (scalarStep 44) s := by
  induction fuel with
  | zero =>
    intro bs s hlen _ _
    have : bs = [] := List.eq_nil_of_length_eq_zero (Nat.le_zero.mp hlen)
    subst this
    rfl
  | succ fuel ih =>
    intro bs s hlen hq h34
    unfold simdLoop
    by_cases h32 : 32 ≤ bs.length
    · rw [if_pos h32]
      have hdlen : (bs.drop 32).length ≤ fuel := by
        rw [List.length_drop]; omega
      have hwq : (windowStep s (bs.take 32)).in_quotes = false := by
        rw [windowStep_eq_foldl, foldl_commaStep_in_quotes, hq]
      have hd34 : ∀ b ∈ bs.drop 32, ¬ b = 34 :=
        fun b hb => h34 b (List.drop_subset 32 bs hb)
      rw [ih (bs.drop 32) (windowStep s (bs.take 32)) hdlen hwq hd34]
      have ht34 : ∀ b ∈ bs.take 32, ¬ b = 34 :=
        fun b hb => h34 b (List.take_subset 32 bs hb)
      rw [windowStep_eq_foldl, ← foldl_scalarStep_eq_comma _ s hq ht34,
        ← List.foldl_append, List.take_append_drop]
    · rw [if_neg h32]

theorem simdPath_eq_scalarPath (line : List Nat) (h34 : 34 ∉ line) :
    simdPath line = scalarPath line 44 := by
  have := simdLoop_drain line.length line ⟨[], [], false⟩ (le_refl _) rfl
    (fun b hb hb34 => h34 (hb34 ▸ hb))
  exact congrArg (fun s : ScanState => s.tokens ++ [s.current]) this

theorem foldl_scalarStep_plain (delim : Nat) (l : List Nat) :
    ∀ s : ScanState, (∀ b ∈ l, ¬ b = delim ∧ ¬ b = 34) →
      l.foldl (scalarStep delim) s = ⟨s.tokens, s.current ++ l, s.in_quotes⟩ := by
  induction l with
  | nil => intro s _; simp
  | cons b l ih =>
    intro s h
    obtain ⟨hbd, hb34⟩ := h b (by simp)
    rw [List.foldl_cons,
      show scalarStep delim s b = ⟨s.tokens, s.current ++ [b], s.in_quotes⟩ by
        unfold scalarStep; rw [if_neg (fun hc => hbd hc.1), if_neg hb34],
      ih _ (fun c hc => h c (by simp [hc]))]
    simp

theorem foldl_scalarStep_quoted (delim : Nat) (l : List Nat) :
    ∀ s : ScanState, s.in_quotes = true → (∀ b ∈ l, ¬ b = 34) →
      l.foldl (scalarStep delim) s = ⟨s.tokens, s.current ++ l, true⟩ := by
  induction l with
  | nil => intro s hq _; simp [← hq]
  | cons b l ih =>
    intro s hq h
    have hb34 : ¬ b = 34 := h b (by simp)
    rw [List.foldl_cons,
      show scalarStep delim s b = ⟨s.tokens, s.current ++ [b], s.in_quotes⟩ by
        unfold scalarStep
        rw [if_neg (fun hc => by rw [hq] at hc; exact absurd hc.2 (by decide)),
          if_neg hb34],
      hq, ih _ rfl (fun c hc => h c (by simp [hc]))]
    simp

theorem scalarStep_quote (delim : Nat) (s : ScanState) (hd : ¬ delim = 34) :
    scalarStep delim s 34 = ⟨s.tokens, s.current, !s.in_quotes⟩ := by
  unfold scalarStep
  rw [if_neg (fun hc => hd hc.1.symm), if_pos rfl]

theorem scalarPath_quoted_span (delim : Nat) (u t v : List Nat)
    (hd : ¬ delim = 34) (hu34 : 34 ∉ u) (ht34 : 34 ∉ t) (hv34 : 34 ∉ v)
    (hud : delim ∉ u) (hvd : delim ∉ v) :
    scalarPath (u ++ 34 :: t ++ 34 :: v) delim = [u ++ t ++ v] := by
  have s1 : u.foldl (scalarStep delim) ⟨[], [], false⟩ = ⟨[], u, false⟩ := by
    rw [foldl_scalarStep_plain delim u _
      (fun b hb => ⟨fun h => hud (h ▸ hb), fun h => hu34 (h ▸ hb)⟩)]
    simp
  have c1 : (34 :: t).foldl (scalarStep delim) ⟨[], u, false⟩ = ⟨[], u ++ t, true⟩ := by
    rw [List.foldl_cons, scalarStep_quote delim _ hd]
    simp only [Bool.not_false]
    exact foldl_scalarStep_quoted delim t _ rfl (fun b hb h => ht34 (h ▸ hb))
  have c2 : (34 :: v).foldl (scalarStep delim) ⟨[], u ++ t, true⟩ =
      ⟨[], u ++ t ++ v, false⟩ := by
    rw [List.foldl_cons, scalarStep_quote delim _ hd]
    simp only [Bool.not_true]
    exact foldl_scalarStep_plain delim v _
      (fun b hb => ⟨fun h => hvd (h ▸ hb), fun h => hv34 (h ▸ hb)⟩)
  have key : (u ++ 34 :: t ++ 34 :: v).foldl (scalarStep delim) ⟨[], [], false⟩ =
      ⟨[], u ++ t ++ v, false⟩ := by
    rw [List.foldl_append, List.foldl_append, s1, c1, c2]
  exact congrArg (fun s : ScanState => s.tokens ++ [s.current]) key

theorem tokens_append_ne_nil (s : ScanState) : s.tokens ++ [s.current] ≠ [] := by
  simp

theorem parse_line_simd_ne_nil (line : List Nat) (delim : Nat) :
    parse_line_simd line delim ≠ [] := by
  unfold parse_line_simd
  split
  · exact tokens_append_ne_nil _
  · exact tokens_append_ne_nil _

theorem parse_line_simd_empty (delim : Nat) : parse_line_simd [] delim = [[]] := by
  unfold parse_line_simd
  rw [if_neg (fun hc => by exact absurd hc.2 (by decide))]
  rfl

theorem pushRow_truncates (cols : List (List (List Nat))) :
    ∀ row, pushRow cols row = pushRow cols (row.take cols.length) := by
  induction cols with
  | nil => intro row; cases row <;> rfl
  | cons c cs ih =>
    intro row
    cases row with
    | nil => rfl
    | cons v vs => simp [pushRow, ih vs]

theorem pushRow_length (cols : List (List (List Nat))) :
    ∀ row, (pushRow cols row).length = cols.length := by
  induction cols with
  | nil => intro row; cases row <;> rfl
  | cons c cs ih =>
    intro row
    cases row with
    | nil => rfl
    | cons v vs => simp [pushRow, ih vs]

theorem pushRow_lengths (m : Nat) (cols : List (List (List Nat))) :
    ∀ row, (∀ c ∈ cols, List.length c = m) → row.length = cols.length →
      ∀ c ∈ pushRow cols row, List.length c = m + 1 := by
  induction cols with
  | nil => intro row _ _ c hc; exact absurd hc (by simp [pushRow])
  | cons c0 cs ih =>
    intro row hall hlen c hc
    cases row with
    | nil => exact absurd hlen (by simp)
    | cons v vs =>
      rw [pushRow] at hc
      rcases List.mem_cons.mp hc with h | h
      · rw [h, List.length_append, hall c0 (by simp)]; rfl
      · exact ih vs (fun d hd => hall d (by simp [hd]))
          (by simpa using hlen) c h

theorem foldl_pushRow_lengths (delim : Nat) (ls : List (List Nat)) :
    ∀ (cols : List (List (List Nat))) (m : Nat),
      (∀ c ∈ cols, List.length c = m) →
      (∀ l ∈ ls, (parse_line_simd l delim).length = cols.length) →
      (∀ c ∈ ls.foldl (fun cs l => pushRow cs (parse_line_simd l delim)) cols,
          List.length c = m + ls.length) ∧
        (ls.foldl (fun cs l => pushRow cs (parse_line_simd l delim)) cols).length =
          cols.length := by
  induction ls with
  | nil => intro cols m hall _; exact ⟨by simpa using hall, rfl⟩
  | cons l ls ih =>
    intro cols m hall hrows
    rw [List.foldl_cons]
    have hrow : (parse_line_simd l delim).length = cols.length :=
      hrows l (by simp)
    have h1 : ∀ c ∈ pushRow cols (parse_line_simd l delim), List.length c = m + 1 :=
      pushRow_lengths m cols _ hall hrow
    have h2 : (pushRow cols (parse_line_simd l delim)).length = cols.length :=
      pushRow_length cols _
    obtain ⟨ha, hb⟩ := ih (pushRow cols (parse_line_simd l delim)) (m + 1) h1
      (fun l2 hl2 => by rw [hrows l2 (by simp [hl2]), h2])
    refine ⟨fun c hc => ?_, by rw [hb, h2]⟩
    rw [ha c hc]
    simp
    omega

theorem buildArrays_utf8 (cols : List (List (List Nat))) :
    ∀ fields : List Field, cols.length = fields.length →
      (∀ f ∈ fields, Field.dtype f = .Utf8) →
      buildArrays cols fields = .ok (cols.map .utf8) := by
  induction cols with
  | nil =>
    intro fields hlen _
    cases fields with
    | nil => rfl
    | cons f fs => exact absurd hlen (by simp)
  | cons c cs ih =>
    intro fields hlen hall
    cases fields with
    | nil => exact absurd hlen (by simp)
    | cons f fs =>
      rw [buildArrays,
        show create_array c f.dtype = .ok (.utf8 c) by
          rw [hall f (by simp)]; rfl,
        ih fs (by simpa using hlen) (fun g hg => hall g (by simp [hg]))]
      rfl

theorem create_schema_utf8 (header : List (List Nat)) :
    ∀ f ∈ create_schema header, Field.dtype f = .Utf8 ∧ Field.nullable f = true := by
  intro f hf
  obtain ⟨name, -, rfl⟩ := List.mem_map.mp hf
  exact ⟨rfl, rfl⟩

theorem create_schema_names (header : List (List Nat)) :
    (create_schema header).map Field.name = header := by
  rw [create_schema, List.map_map]
  exact List.map_id'' (fun x => rfl) header

theorem create_schema_length (header : List (List Nat)) :
    (create_schema header).length = header.length :=
  List.length_map header _

theorem try_new_ok (schema : List Field) (a : ColumnArray) (rest : List ColumnArray)
    (h1 : (a :: rest).length = schema.length)
    (h2 : ∀ p ∈ schema.zip (a :: rest), ColumnArray.dataType p.2 = Field.dtype p.1)
    (h3 : ∀ b ∈ rest, ColumnArray.length b = ColumnArray.length a) :
    RecordBatch.try_new schema (a :: rest) = .ok ⟨schema, a :: rest⟩ := by
  rw [RecordBatch.try_new, if_pos ⟨h1, h2, h3⟩]

theorem try_new_ok_inv (schema : List Field) (arrays : List ColumnArray)
    (b : RecordBatch) (h : RecordBatch.try_new schema arrays = .ok b) :
    b.schema = schema ∧ b.columns = arrays ∧
      ∀ c ∈ b.columns,
        ColumnArray.length c = ColumnArray.length (b.columns.headD (.utf8 [])) := by
  cases arrays with
  | nil => exact absurd h (by rw [RecordBatch.try_new]; simp)
  | cons a rest =>
    rw [RecordBatch.try_new] at h
    split at h
    · next hc =>
      obtain ⟨rfl⟩ : b = ⟨schema, a :: rest⟩ := by
        cases h; exact rfl
      refine ⟨rfl, rfl, fun c hc2 => ?_⟩
      rcases List.mem_cons.mp hc2 with h | h
      · rw [h]; rfl
      · exact hc.2.2 c h
    · exact absurd h (by simp)

theorem zip_utf8_types (fields : List Field) (cols : List (List (List Nat)))
    (hf : ∀ f ∈ fields, Field.dtype f = .Utf8) :
    ∀ p ∈ fields.zip (cols.map ColumnArray.utf8),
      ColumnArray.dataType p.2 = Field.dtype p.1 := by
  intro p hp
  obtain ⟨h1, h2⟩ := List.of_mem_zip hp
  obtain ⟨v, -, hv⟩ := List.mem_map.mp h2
  rw [hf p.1 h1, ← hv]
  rfl

theorem buildColumns_facts (header : List (List Nat)) (dlines : List (List Nat))
    (delim : Nat)
    (hshape : ∀ l ∈ dlines, (parse_line_simd l delim).length = header.length) :
    (∀ c ∈ buildColumns header.length dlines delim, List.length c = dlines.length) ∧
      (buildColumns header.length dlines delim).length = header.length := by
  have hrep : ∀ c ∈ List.replicate header.length ([] : List (List Nat)),
      List.length c = 0 := by
    intro c hc
    rw [List.eq_of_mem_replicate hc]
    rfl
  have hrows : ∀ l ∈ dlines, (parse_line_simd l delim).length =
      (List.replicate header.length ([] : List (List Nat))).length := by
    intro l hl
    rw [List.length_replicate]
    exact hshape l hl
  obtain ⟨hlens, hklen⟩ :=
    foldl_pushRow_lengths delim dlines (List.replicate header.length []) 0 hrep hrows
  constructor
  · intro c hc
    have := hlens c (by rw [buildColumns] at hc; exact hc)
    simpa using this
  · rw [buildColumns, hklen, List.length_replicate]

theorem assemble_ok (header : List (List Nat)) (dlines : List (List Nat))
    (delim : Nat) (hne : header ≠ [])
    (hshape : ∀ l ∈ dlines, (parse_line_simd l delim).length = header.length) :
    buildArrays (buildColumns header.length dlines delim) (create_schema header) =
      .ok ((buildColumns header.length dlines delim).map .utf8) ∧
    RecordBatch.try_new (create_schema header)
        ((buildColumns header.length dlines delim).map .utf8) =
      .ok ⟨create_schema header, (buildColumns header.length dlines delim).map .utf8⟩ := by
  obtain ⟨hcols_each, hcols_len⟩ := buildColumns_facts header dlines delim hshape
  refine ⟨buildArrays_utf8 _ _ (hcols_len.trans (create_schema_length header).symm)
    (fun f hf => (create_schema_utf8 header f hf).1), ?_⟩
  obtain ⟨c0, cs, hc0⟩ : ∃ c0 cs, buildColumns header.length dlines delim = c0 :: cs := by
    cases hbc : buildColumns header.length dlines delim with
    | nil =>
      rw [hbc] at hcols_len
      exact absurd hcols_len.symm (by simpa using hne)
    | cons a b => exact ⟨a, b, rfl⟩
  have hzip := zip_utf8_types (create_schema header)
    (buildColumns header.length dlines delim)
    (fun f hf => (create_schema_utf8 header f hf).1)
  rw [hc0] at hzip hcols_each hcols_len ⊢
  rw [List.map_cons] at hzip ⊢
  refine try_new_ok _ _ _ ?_ hzip ?_
  · rw [← List.map_cons ColumnArray.utf8 c0 cs, List.length_map,
      create_schema_length, ← hcols_len]
  · intro b hb
    obtain ⟨x, hx, rfl⟩ := List.mem_map.mp hb
    show x.length = c0.length
    rw [hcols_each x (by simp [hx]), hcols_each c0 (by simp)]

theorem parseLines_wellformed (hline : List Nat) (dlines : List (List Nat))
    (delim : Nat)
    (hshape : ∀ l ∈ dlines,
      (parse_line_simd l delim).length = (parse_line_simd hline delim).length) :
    parseLines hline dlines delim =
      .ok ⟨create_schema (parse_line_simd hline delim),
        (buildColumns (parse_line_simd hline delim).length dlines delim).map .utf8⟩ := by
  obtain ⟨h1, h2⟩ := assemble_ok (parse_line_simd hline delim) dlines delim
    (parse_line_simd_ne_nil hline delim) hshape
  rw [parseLines.eq_def, h1]
  exact h2

theorem parse_csv_of_split (data : List Nat) (delim bs : Nat) (hline : List Nat)
    (dlines : List (List Nat)) (hsplit : rustLines data = hline :: dlines) :
    parse_csv data delim bs = parseLines hline dlines delim := by
  rw [parse_csv, hsplit]

theorem parse_csv_ok_columns (data : List Nat) (delim bs : Nat) (b : RecordBatch)
    (h : parse_csv data delim bs = .ok b) :
    ∀ c ∈ b.columns,
      ColumnArray.length c = ColumnArray.length (b.columns.headD (.utf8 [])) := by
  rw [parse_csv] at h
  cases hr : rustLines data with
  | nil => rw [hr] at h; exact absurd h (by simp)
  | cons hl dl =>
    rw [hr] at h
    replace h : parseLines hl dl delim = .ok b := h
    rw [parseLines.eq_def] at h
    cases hba : buildArrays
        (buildColumns (parse_line_simd hl delim).length dl delim)
        (create_schema (parse_line_simd hl delim)) with
    | error e => rw [hba] at h; exact absurd h (by simp)
    | ok arrays =>
      rw [hba] at h
      exact (try_new_ok_inv _ _ _ h).2.2

theorem splitInclusiveNewline_concat (h : List Nat) (h10 : 10 ∉ h) :
    splitInclusiveNewline (h ++ [10]) = [h ++ [10]] := by
  induction h with
  | nil => rfl
  | cons b t ih =>
    have hb : ¬ b = 10 := fun hb => h10 (by simp [hb])
    show splitInclusiveNewline (b :: (t ++ [10])) = [(b :: t) ++ [10]]
    rw [splitInclusiveNewline, if_neg hb, ih (fun ht => h10 (by simp [ht]))]
    rfl

theorem stripLineEnding_concat (h : List Nat) (h13 : h.getLast? ≠ some 13) :
    stripLineEnding (h ++ [10]) = h := by
  unfold stripLineEnding
  rw [if_pos (by rw [List.getLast?_concat])]
  show (if (h ++ [10]).dropLast.getLast? = some 13
    then (h ++ [10]).dropLast.dropLast else (h ++ [10]).dropLast) = h
  rw [List.dropLast_concat, if_neg h13]

theorem rustLines_concat (h : List Nat) (h10 : 10 ∉ h)
    (h13 : h.getLast? ≠ some 13) : rustLines (h ++ [10]) = [h] := by
  rw [rustLines, splitInclusiveNewline_concat h h10, List.map_cons, List.map_nil,
    stripLineEnding_concat h h13]

end SimdParser

open SimdParser StreamCore

/-- Claim C1, counterexample: quoting is not respected across newlines or
inside vector windows.  The input `"a,b\n1,\"x\ny\"\n"` has a newline inside
a quoted span, yet the tokenizer produces two data rows (the quoted span is
cut at the newline), not one row with second field `"x\ny"`; and on a line
of at least 32 bytes with comma delimiter, a delimiter inside a quoted span
within a vector window does split the field, and the quote byte survives in
the output. -/
theorem tokenizer_quoting_cx :
    (rustLines (bytes "a,b\n1,\"x\ny\"\n")).map (fun l => parse_line_simd l 44) =
      [[bytes "a", bytes "b"], [bytes "1", bytes "x"], [bytes "y"]]
    ∧ [[bytes "a", bytes "b"], [bytes "1", bytes "x"], [bytes "y"]] ≠
        [[bytes "a", bytes "b"], [bytes "1", bytes "x\ny"]]
    ∧ parse_line_simd (bytes "aaaaaaaaaaaaaaaaaaaaaaaaaaaaaa,\"b,c\"") 44 =
        [bytes "aaaaaaaaaaaaaaaaaaaaaaaaaaaaaa", bytes "\"b", bytes "c"]
    ∧ bytes "\"b" ≠ bytes "b,c" :=
  ⟨by decide, by decide, by decide, by decide⟩

/-- Claim C1, amended: in the scalar tokenizing path (delimiter other than
comma, or line shorter than 32 bytes) a delimiter byte between an opening
and a closing quote does not split the field and the quote bytes are
stripped; rows, however, are split at every newline before quote processing
ever runs, and the 32-byte vector windows ignore quoting.  The concrete
scenario holds: `"name,note\nAda,\"hi, there\"\n"` parses to one data row
whose second field is `"hi, there"` (comma preserved, quotes stripped). -/
theorem tokenizer_quoting_amended :
    parse_csv (bytes "name,note\nAda,\"hi, there\"\n") 44 1024 =
      .ok ⟨[⟨bytes "name", .Utf8, true⟩, ⟨bytes "note", .Utf8, true⟩],
        [.utf8 [bytes "Ada"], .utf8 [bytes "hi, there"]]⟩
    ∧ ∀ (delim : Nat) (u t v : List Nat),
        ¬ delim = 34 → 34 ∉ u → 34 ∉ t → 34 ∉ v → delim ∉ u → delim ∉ v →
        ¬ (delim = 44 ∧ 32 ≤ (u ++ 34 :: t ++ 34 :: v).length) →
        parse_line_simd (u ++ 34 :: t ++ 34 :: v) delim = [u ++ t ++ v] := by
  refine ⟨by decide, fun delim u t v hd hu ht hv hud hvd hpath => ?_⟩
  unfold parse_line_simd
  rw [if_neg hpath]
  exact scalarPath_quoted_span delim u t v hd hu ht hv hud hvd

/-- Witness for the C1 amended theorem: one quoted field containing the
delimiter `;` is tokenized as a single field with the quotes stripped. -/
theorem tokenizer_quoting_amended_witness :
    parse_line_simd (bytes "x" ++ 34 :: bytes "a;b" ++ 34 :: bytes "y") 59 =
      [bytes "x" ++ bytes "a;b" ++ bytes "y"] :=
  tokenizer_quoting_amended.2 59 (bytes "x") (bytes "a;b") (bytes "y")
    (by decide) (by decide) (by decide) (by decide) (by decide) (by decide)
    (by decide)

/-- Claim C2: on every line without quote characters, with comma delimiter
and length at least 32 (the vectorized dispatch condition), the vectorized
scanning path of `parse_line_simd` produces exactly the token sequence the
scalar fallback path produces on that same line. -/
theorem simd_path_matches_scalar (line : List Nat) (h34 : 34 ∉ line)
    (hlen : 32 ≤ line.length) :
    parse_line_simd line 44 = scalarPath line 44 := by
  unfold parse_line_simd
  rw [if_pos ⟨rfl, hlen⟩]
  exact simdPath_eq_scalarPath line h34

/-- Witness for C2 at a concrete 39-byte quote-free line. -/
theorem simd_path_matches_scalar_witness :
    34 ∉ bytes "aaaa,bbbb,cccc,dddd,eeee,ffff,gggg,hhhh"
    ∧ 32 ≤ (bytes "aaaa,bbbb,cccc,dddd,eeee,ffff,gggg,hhhh").length
    ∧ parse_line_simd (bytes "aaaa,bbbb,cccc,dddd,eeee,ffff,gggg,hhhh") 44 =
        scalarPath (bytes "aaaa,bbbb,cccc,dddd,eeee,ffff,gggg,hhhh") 44 :=
  ⟨by decide, by decide, simd_path_matches_scalar _ (by decide) (by decide)⟩

/-- Claim C3, counterexample: on the claim's own scenario input
`"a,b\n1,2.5\n,4\n"` the schema assigns `Utf8` to both columns, not `Int64`
to column `a` and not `Float64` to column `b`; the values are stored as
verbatim strings. -/
theorem schema_inference_cx :
    parse_csv (bytes "a,b\n1,2.5\n,4\n") 44 1024 =
      .ok ⟨[⟨bytes "a", .Utf8, true⟩, ⟨bytes "b", .Utf8, true⟩],
        [.utf8 [bytes "1", bytes ""], .utf8 [bytes "2.5", bytes "4"]]⟩
    ∧ DataType.Utf8 ≠ DataType.Int64 ∧ DataType.Utf8 ≠ DataType.Float64 :=
  ⟨by decide, by decide, by decide⟩

/-- Claim C3, amended: schema creation never inspects the sampled values at
all — every column of every header is assigned `Utf8` and marked nullable;
in particular the scenario input `"a,b\n1,2.5\n,4\n"` infers
`a: Utf8 (nullable), b: Utf8 (nullable)`. -/
theorem schema_always_utf8 :
    (∀ (header : List (List Nat)) (f : Field), f ∈ create_schema header →
      Field.dtype f = .Utf8 ∧ Field.nullable f = true)
    ∧ (parse_csv (bytes "a,b\n1,2.5\n,4\n") 44 1024).map RecordBatch.schema =
        .ok [⟨bytes "a", .Utf8, true⟩, ⟨bytes "b", .Utf8, true⟩] :=
  ⟨fun header f hf => create_schema_utf8 header f hf, by decide⟩

/-- Witness for the C3 amended theorem at a one-column header. -/
theorem schema_always_utf8_witness :
    Field.dtype ⟨bytes "a", .Utf8, true⟩ = .Utf8
    ∧ Field.nullable ⟨bytes "a", .Utf8, true⟩ = true :=
  schema_always_utf8.1 [bytes "a"] ⟨bytes "a", .Utf8, true⟩ (by decide)

/-- Claim C4, counterexample: the row `"1,2,3"` against the 2-field schema
of header `"a,b"` is not rejected at all — `parse_csv` succeeds and the
third field is silently dropped (the emitted row is `("1","2")`). -/
theorem row_shape_cx :
    parse_csv (bytes "a,b\n1,2,3\n") 44 64 =
      .ok ⟨[⟨bytes "a", .Utf8, true⟩, ⟨bytes "b", .Utf8, true⟩],
        [.utf8 [bytes "1"], .utf8 [bytes "2"]]⟩ := by
  decide

/-- Claim C4, amended: a row with more fields than the schema is silently
truncated to the schema's field count (pushing a row into the columns is
unchanged by first dropping the surplus fields) and parsing succeeds,
while a row with fewer fields leaves trailing columns short and the whole
parse then fails with a generic batch-construction error — there is no
row-shape error, no reject counting, and no lenient/strict mode. -/
theorem row_shape_amended :
    (∀ (cols : List (List (List Nat))) (row : List (List Nat)),
      pushRow cols row = pushRow cols (row.take cols.length))
    ∧ parse_csv (bytes "a,b\n1,2,3\n") 44 1024 =
        .ok ⟨[⟨bytes "a", .Utf8, true⟩, ⟨bytes "b", .Utf8, true⟩],
          [.utf8 [bytes "1"], .utf8 [bytes "2"]]⟩
    ∧ parse_csv (bytes "a,b\n1\n") 44 1024 = .error .arrowError :=
  ⟨fun cols row => pushRow_truncates cols row, by decide, by decide⟩

/-- Claim C5: for an input whose line split is a header followed by data
lines that each tokenize to exactly the header's field count, `parse_csv`
succeeds and every column of the returned batch has exactly one entry per
data line; moreover every batch ever returned by `parse_csv` has columns of
pairwise equal length. -/
theorem parse_csv_batch_row_counts (data : List Nat) (delim bs : Nat)
    (hline : List Nat) (dlines : List (List Nat))
    (hsplit : rustLines data = hline :: dlines)
    (hshape : ∀ l ∈ dlines,
      (parse_line_simd l delim).length = (parse_line_simd hline delim).length) :
    (∃ b : RecordBatch, parse_csv data delim bs = .ok b ∧
      b.columns.length = (parse_line_simd hline delim).length ∧
      ∀ c ∈ b.columns, ColumnArray.length c = dlines.length)
    ∧ ∀ (data2 : List Nat) (delim2 bs2 : Nat) (b2 : RecordBatch),
        parse_csv data2 delim2 bs2 = .ok b2 →
        ∀ c ∈ b2.columns,
          ColumnArray.length c = ColumnArray.length (b2.columns.headD (.utf8 [])) := by
  constructor
  · have hw := parseLines_wellformed hline dlines delim hshape
    have hp := parse_csv_of_split data delim bs hline dlines hsplit
    refine ⟨_, hp.trans hw, ?_, ?_⟩
    · show ((buildColumns (parse_line_simd hline delim).length dlines delim).map
        ColumnArray.utf8).length = _
      rw [List.length_map]
      exact (buildColumns_facts _ dlines delim hshape).2
    · intro c hc
      obtain ⟨x, hx, rfl⟩ := List.mem_map.mp hc
      show x.length = dlines.length
      exact (buildColumns_facts _ dlines delim hshape).1 x hx
  · intro data2 delim2 bs2 b2 h2
    exact parse_csv_ok_columns data2 delim2 bs2 b2 h2

/-- Witness for C5 at the input `"a,b\n1,2\n3,4\n"` (two data rows). -/
theorem parse_csv_batch_row_counts_witness :
    ∃ b : RecordBatch, parse_csv (bytes "a,b\n1,2\n3,4\n") 44 7 = .ok b ∧
      b.columns.length = 2 ∧ ∀ c ∈ b.columns, ColumnArray.length c = 2 := by
  obtain ⟨⟨b, h1, h2, h3⟩, -⟩ := parse_csv_batch_row_counts
    (bytes "a,b\n1,2\n3,4\n") 44 7 (bytes "a,b") [bytes "1,2", bytes "3,4"]
    (by decide) (by decide)
  exact ⟨b, h1, h2, h3⟩

/-- Claim C6, counterexample: the quoted encoding of the field text `a"b`
(inner quote doubled, i.e. the line `"a""b"`) tokenizes to `ab`, not to
`a"b` — each quote byte merely toggles the in-quotes flag and is dropped,
so a doubled quote contributes nothing. -/
theorem doubled_quote_cx :
    parse_line_simd (bytes "\"a\"\"b\"") 44 = [bytes "ab"]
    ∧ bytes "ab" ≠ bytes "a\"b" :=
  ⟨by decide, by decide⟩

/-- Claim C6, amended: quote bytes are never emitted into a field, so the
quoted round-trip holds exactly for field texts free of quote characters:
for any such text `t` (which may contain the delimiter), tokenizing
`"t"` in the scalar path yields the single field `t`. -/
theorem quote_roundtrip_amended (delim : Nat) (t : List Nat)
    (hd : ¬ delim = 34) (ht : 34 ∉ t)
    (hpath : ¬ (delim = 44 ∧ 32 ≤ (34 :: t ++ [34]).length)) :
    parse_line_simd (34 :: t ++ [34]) delim = [t] := by
  unfold parse_line_simd
  rw [if_neg hpath]
  have := scalarPath_quoted_span delim [] t [] hd (by simp) ht (by simp)
    (by simp) (by simp)
  simpa using this

/-- Witness for the C6 amended theorem: the quoted field `"p,q"` (with an
embedded comma) round-trips to the single field `p,q`. -/
theorem quote_roundtrip_amended_witness :
    parse_line_simd (34 :: bytes "p,q" ++ [34]) 44 = [bytes "p,q"] :=
  quote_roundtrip_amended 44 (bytes "p,q") (by decide) (by decide) (by decide)

/-- Claim C7: `parse_csv` on empty input fails with the empty-data
(schema-inference) error, and on a header-only input (one header line, no
data lines) succeeds with a schema naming every header field and a batch
whose columns are all empty (zero data rows). -/
theorem empty_and_header_only_inputs :
    (∀ delim bs : Nat, parse_csv [] delim bs = .error .emptyData)
    ∧ ∀ (h : List Nat) (delim bs : Nat), 10 ∉ h → h.getLast? ≠ some 13 →
        ∃ b : RecordBatch, parse_csv (h ++ [10]) delim bs = .ok b ∧
          b.schema.map Field.name = parse_line_simd h delim ∧
          b.columns.length = (parse_line_simd h delim).length ∧
          ∀ c ∈ b.columns, ColumnArray.length c = 0 := by
  constructor
  · intro delim bs; rfl
  · intro h delim bs h10 h13
    have hsplit := rustLines_concat h h10 h13
    have hp := parse_csv_of_split (h ++ [10]) delim bs h [] hsplit
    have hnil : ∀ l ∈ ([] : List (List Nat)),
        (parse_line_simd l delim).length = (parse_line_simd h delim).length := by
      intro l hl
      exact absurd hl (by simp)
    have hw := parseLines_wellformed h [] delim hnil
    refine ⟨_, hp.trans hw, ?_, ?_, ?_⟩
    · show (create_schema (parse_line_simd h delim)).map Field.name = _
      exact create_schema_names _
    · show ((buildColumns (parse_line_simd h delim).length [] delim).map
        ColumnArray.utf8).length = _
      rw [List.length_map]
      exact (buildColumns_facts _ [] delim hnil).2
    · intro c hc
      obtain ⟨x, hx, rfl⟩ := List.mem_map.mp hc
      show x.length = 0
      have := (buildColumns_facts (parse_line_simd h delim) [] delim hnil).1 x hx
      simpa using this

/-- Witness for C7 at the header-only input `"a,b\n"`. -/
theorem empty_and_header_only_inputs_witness :
    ∃ b : RecordBatch, parse_csv (bytes "a,b" ++ [10]) 44 3 = .ok b ∧
      b.schema.map Field.name = [bytes "a", bytes "b"] ∧
      b.columns.length = 2 ∧ ∀ c ∈ b.columns, ColumnArray.length c = 0 := by
  obtain ⟨b, h1, h2, h3, h4⟩ := empty_and_header_only_inputs.2 (bytes "a,b") 44 3
    (by decide) (by decide)
  exact ⟨b, h1, h2, h3, h4⟩

/-- Claim C8 (code bug): `process_stream` never inspects its source and can
never fail — for every source URL it returns success with the fabricated
statistics `rows_processed = 1000`, `bytes_processed = 1048576`, so an
unreadable source does not produce a `SourceUnavailable`/`Failed` outcome. -/
theorem process_stream_fabricated :
    ∀ (p : StreamProcessor) (source_url : String) (batch_size : Nat)
      (schema_id : String),
      p.process_stream source_url batch_size schema_id = .ok ⟨1000, 1048576⟩
      ∧ ∀ e : StreamError, p.process_stream source_url batch_size schema_id ≠ .error e :=
  fun _p _u _b _s => ⟨rfl, fun e _h => nomatch e⟩

/-- Claim C9 (code bug): recording a metric stores nothing (the collector
is stateless), and the snapshot is a fixed fabricated mapping — it misses
every recorded name and contains `rows_processed` even though it was never
recorded. -/
theorem metrics_mock_record_snapshot :
    ∀ c : MetricsCollector,
      c.record_metric "custom_total" 5 = .ok ()
      ∧ c.get_metrics = .ok [("rows_processed", 1000), ("throughput_mbps", 100)]
      ∧ List.lookup "custom_total"
          [(("rows_processed" : String), (1000 : Rat)), ("throughput_mbps", 100)] = none
      ∧ List.lookup "rows_processed"
          [(("rows_processed" : String), (1000 : Rat)), ("throughput_mbps", 100)] =
          some 1000 :=
  fun _c => ⟨rfl, rfl, by decide, by decide⟩

/-- Claim C10: `parse_line_simd` always yields at least one field (the final
accumulated token is pushed unconditionally), the empty line tokenizes to
exactly one empty field, and consequently a blank line in the middle of an
input becomes a one-field data row rather than being skipped. -/
theorem parse_line_always_yields_field :
    (∀ (line : List Nat) (delim : Nat), parse_line_simd line delim ≠ [])
    ∧ (∀ delim : Nat, parse_line_simd [] delim = [[]])
    ∧ (rustLines (bytes "a,b\n\n1,2\n")).map (fun l => parse_line_simd l 44) =
        [[bytes "a", bytes "b"], [[]], [bytes "1", bytes "2"]] :=
  ⟨fun line delim => parse_line_simd_ne_nil line delim,
    fun delim => parse_line_simd_empty delim, by decide⟩
